import Mathlib

/-!
Shallow embedding of the client-side PDF toolkit (split / merge / compress).

Pages are modelled abstractly: a document is a `List α` of pages (split and
merge copy pages without inspecting them), except for the compressor, where a
page carries its width and height as rationals.  JavaScript numbers entered in
the range inputs are modelled as `Int` (the clamping code never produces
non-integers, and `NaN`-like inputs are normalised to the lower bound by
`clampInt` before any arithmetic that matters here).  Fallible operations
return `Except`/`Option`; operations that trigger one browser download per
produced document are modelled as returning the list of downloads performed
together with the error, if any, so that partial emission is observable.
-/

/-- A page range as held in the splitter's state: 1-based inclusive bounds. -/
structure PageRange where
  «from» : Int
  «to» : Int
deriving DecidableEq

/-- The splitter's `clampInt(v, min, max)`: `Math.max(min, Math.min(max, n))`.
A non-numeric input returns `min`; integer inputs are modelled exactly. -/
def clampInt (v lo hi : Int) : Int := max lo (min hi v)

/-- The `validRanges` memo: with a known non-zero page count, clamp both bounds
of every range into `[1, pageCount]`; otherwise the empty list. -/
def validRanges (pageCount : Int) (ranges : List PageRange) : List PageRange :=
  if pageCount = 0 then []
  else ranges.map fun r => ⟨clampInt r.«from» 1 pageCount, clampInt r.«to» 1 pageCount⟩

/-- The `cleaned` list computed at the start of `splitAndDownload`: the clamped
ranges, with `from` and `to` swapped whenever `from > to`. -/
def cleaned (pageCount : Int) (ranges : List PageRange) : List PageRange :=
  (validRanges pageCount ranges).map fun r =>
    if r.«from» > r.«to» then ⟨r.«to», r.«from»⟩ else r

/-- The in-engine bounds check of `splitAndDownload`: a range is reported
invalid when `from < 1`, `to > pageCount` or `from > to`. -/
def rangeInvalid (pageCount : Int) (r : PageRange) : Bool :=
  r.«from» < 1 || r.«to» > pageCount || r.«from» > r.«to»

/-- `Array.from({length: to - from + 1}, (_, k) => (from - 1) + k)`: the
0-based page indexes of a range (empty when the length expression is not
positive). -/
def pageIndexes (r : PageRange) : List Int :=
  (List.range (r.«to» - r.«from» + 1).toNat).map fun (k : Nat) => (r.«from» - 1) + (k : Int)

/-- `copyPages` of the document library: looks every index up in the source's
page list, failing (throwing) on any negative or out-of-range index. -/
def copyPages {α : Type} (src : List α) (idxs : List Int) : Option (List α) :=
  idxs.mapM fun i => if 0 ≤ i then src.get? i.toNat else none

/-- The splitter's failure messages: no file / zero pages loaded
("Please upload a PDF first."), the bounds-check message ("One or more ranges
are invalid."), and the catch-all of the copy loop ("Splitting failed ..."). -/
inductive SplitError
  | noFile
  | invalidRanges
  | splitFailed
deriving DecidableEq

/-- The download loop of `splitAndDownload`: one output document per range, in
input order, each downloaded as soon as it is assembled.  A failing page copy
aborts the loop; the documents already downloaded stay downloaded. -/
def runRanges {α : Type} (src : List α) : List PageRange → List (List α) × Option SplitError
  | [] => ([], none)
  | r :: rs =>
    match copyPages src (pageIndexes r) with
    | none => ([], some SplitError.splitFailed)
    | some out =>
      let rest := runRanges src rs
      (out :: rest.1, rest.2)

/-- `splitAndDownload`: guard on a loaded file with a truthy page count, clamp
and swap the ranges, run the bounds check, then copy and download one document
per range.  Returns the downloads performed and the error, if any. -/
def splitAndDownload {α : Type} (src : List α) (ranges : List PageRange) :
    List (List α) × Option SplitError :=
  let pageCount : Int := src.length
  if pageCount = 0 then ([], some SplitError.noFile)
  else if (cleaned pageCount ranges).any (rangeInvalid pageCount) then
    ([], some SplitError.invalidRanges)
  else runRanges src (cleaned pageCount ranges)

/-- Source pages `from..to` (1-based inclusive) in ascending order: the
document `splitAndDownload` assembles for one range. -/
def extractRange {α : Type} (src : List α) (r : PageRange) : List α :=
  (src.drop (r.«from» - 1).toNat).take (r.«to» - r.«from» + 1).toNat

/-- One step of `normalizeRanges`: clamp both bounds into `[1, pageCount]`,
then swap when the clamped `from` exceeds the clamped `to`. -/
def normalizeRange (pageCount : Int) (r : PageRange) : PageRange :=
  let f := clampInt r.«from» 1 pageCount
  let t := clampInt r.«to» 1 pageCount
  if f ≤ t then ⟨f, t⟩ else ⟨t, f⟩

/-- `normalizeRanges`: a no-op without a truthy page count, otherwise clamp
and swap every range.  It never fails. -/
def normalizeRanges (pageCount : Int) (ranges : List PageRange) : List PageRange :=
  if pageCount = 0 then ranges else ranges.map (normalizeRange pageCount)

/-- `parseInt(digits, 10)` on a non-empty all-digit capture group, as an
exact integer.  This is faithful to the program for values below 2^53, where
`parseInt`'s IEEE-754 double is exact (and finite); the parser theorem is
stated within that range. -/
def digitsToNat (ds : List Char) : Nat :=
  ds.foldl (fun n c => 10 * n + (c.toNat - '0'.toNat)) 0

/-- The ECMAScript whitespace set shared by `String.prototype.trim()` and the
regex class `\s`: tab, line feed, vertical tab, form feed, carriage return,
space, no-break space, Ogham space mark, the en-quad..hair-space block
U+2000..U+200A, line separator, paragraph separator, narrow no-break space,
medium mathematical space, ideographic space and the byte-order mark. -/
def jsWhitespace (c : Char) : Bool :=
  c = ' ' || c = '\t' || c = '\n' || c = '\x0b' || c = '\x0c' || c = '\r' ||
  c = '\u00a0' || c = '\u1680' || ('\u2000' ≤ c && c ≤ '\u200a') ||
  c = '\u2028' || c = '\u2029' || c = '\u202f' || c = '\u205f' ||
  c = '\u3000' || c = '\ufeff'

/-- The regex match `t.match(/^(\d+)\s*(?:-\s*(\d+))?$/)` of `parseRangeText`,
on the characters of the trimmed token: one or more digits, optional
whitespace, then either the end of the token or a dash, optional whitespace
and one or more digits ending the token.  Returns the first capture and the
optional second capture as numbers. -/
def matchToken (cs : List Char) : Option (Nat × Option Nat) :=
  let ds := cs.takeWhile Char.isDigit
  let rest := cs.dropWhile Char.isDigit
  if ds.isEmpty then none
  else
    match rest.dropWhile jsWhitespace with
    | [] => some (digitsToNat ds, none)
    | c :: rest2 =>
      if c = '-' then
        let ds2 := (rest2.dropWhile jsWhitespace).takeWhile Char.isDigit
        let rest3 := (rest2.dropWhile jsWhitespace).dropWhile Char.isDigit
        if ds2.isEmpty then none
        else if rest3.isEmpty then some (digitsToNat ds, some (digitsToNat ds2))
        else none
      else none

/-- `String(text).trim()`: drop leading and trailing ECMAScript whitespace. -/
def trimChars (cs : List Char) : List Char :=
  ((cs.dropWhile jsWhitespace).reverse.dropWhile jsWhitespace).reverse

/-- `parseRangeText`: trim, reject the empty token, match the range grammar;
a bare integer `N` yields `{from: N, to: N}`, a pair `A-B` yields
`{from: A, to: B}` exactly as given. -/
def parseRangeText (text : String) : Option PageRange :=
  let t := trimChars text.toList
  if t.isEmpty then none
  else
    match matchToken t with
    | none => none
    | some (a, b) => some ⟨(a : Int), ((b.getD a : Nat) : Int)⟩

/-- Declarative reading of the spec's token grammar `^\d+(\s*-\s*\d+)?$` on a
trimmed token, with `\s` the ECMAScript whitespace set: either just digits
(optionally followed by whitespace, which a trimmed token cannot actually
carry), giving a bare number and no second capture, or digits, whitespace, a
dash, whitespace and digits, giving both captures. -/
def tokenSpec (t : List Char) (a : Nat) (b : Option Nat) : Prop :=
  (b = none ∧ ∃ ds w, t = ds ++ w ∧ ds ≠ [] ∧ (∀ c ∈ ds, c.isDigit) ∧
    (∀ c ∈ w, jsWhitespace c) ∧ a = digitsToNat ds) ∨
  (∃ bv ds w1 w2 ds2, b = some bv ∧ t = ds ++ w1 ++ '-' :: (w2 ++ ds2) ∧
    ds ≠ [] ∧ (∀ c ∈ ds, c.isDigit) ∧ ds2 ≠ [] ∧ (∀ c ∈ ds2, c.isDigit) ∧
    (∀ c ∈ w1, jsWhitespace c) ∧ (∀ c ∈ w2, jsWhitespace c) ∧
    a = digitsToNat ds ∧ bv = digitsToNat ds2)

/-- The merger's failure modes: fewer than two files selected
("Please add at least two PDF files to merge.") and the catch-all of the merge
loop ("An error occurred while merging PDFs."), which carries no information
about which source failed. -/
inductive MergeError
  | insufficientInputs
  | mergeFailed
deriving DecidableEq

/-- The merge loop: load each source in list order (an unreadable source
throws, aborting the whole merge), copy all of its pages in their existing
order and append them to the accumulated output. -/
def mergeLoop {α : Type} : List (Option (List α)) → List α → Except MergeError (List α)
  | [], acc => Except.ok acc
  | none :: _, _ => Except.error MergeError.mergeFailed
  | some d :: fs, acc => mergeLoop fs (acc ++ d)

/-- `mergeAndDownload`: reject fewer than two files, then run the merge loop
over the sources (each either a readable page list or unreadable). -/
def mergeAndDownload {α : Type} (files : List (Option (List α))) : Except MergeError (List α) :=
  if files.length < 2 then Except.error MergeError.insufficientInputs
  else mergeLoop files []

/-- The downloads `mergeAndDownload` performs: the single merged document on
success (the download happens only after the loop), nothing on failure. -/
def mergeDownloads {α : Type} (files : List (Option (List α))) :
    List (List α) × Option MergeError :=
  match mergeAndDownload files with
  | Except.ok d => ([d], none)
  | Except.error e => ([], some e)

/-- A source page as the compressor sees it: its width and height in points. -/
structure PdfPage where
  width : Rat
  height : Rat
deriving DecidableEq

/-- One page of the compressor's output: the page box passed to `addPage`
(the viewport dimensions), the canvas the page was rasterised to (its
dimensions floored to whole pixels), and the placement rectangle passed to
`drawImage`. -/
structure OutPage where
  pageWidth : Rat
  pageHeight : Rat
  canvasWidth : Int
  canvasHeight : Int
  imageX : Rat
  imageY : Rat
  imageWidth : Rat
  imageHeight : Rat
deriving DecidableEq

/-- The compressor's failure mode: the catch-all
("Compression failed. PDF might be encrypted or unsupported."). -/
inductive CompressError
  | unreadable
deriving DecidableEq

/-- One iteration of the compressor's page loop: the viewport is the page
scaled by `scale`; the canvas is `Math.floor` of the viewport dimensions; the
output page is sized to the viewport (not the canvas) and the JPEG is drawn at
the origin with the viewport dimensions. -/
def renderPage (scale : Rat) (p : PdfPage) : OutPage :=
  let vw := scale * p.width
  let vh := scale * p.height
  { pageWidth := vw
    pageHeight := vh
    canvasWidth := ⌊vw⌋
    canvasHeight := ⌊vh⌋
    imageX := 0
    imageY := 0
    imageWidth := vw
    imageHeight := vh }

/-- `handleFile`: an unreadable input fails as a whole; a readable input is
re-rendered page by page, in page order 1..numPages.  The JPEG quality only
affects the encoded bytes, not the geometry modelled here. -/
def handleFile (input : Option (List PdfPage)) (quality scale : Rat) :
    Except CompressError (List OutPage) :=
  match input with
  | none => Except.error CompressError.unreadable
  | some pages =>
    let _ := quality
    Except.ok (pages.map (renderPage scale))

/-- The downloads `handleFile` performs: the single rebuilt document on
success (the download happens only after the loop), nothing on failure. -/
def compressDownloads (input : Option (List PdfPage)) (quality scale : Rat) :
    List (List OutPage) × Option CompressError :=
  match handleFile input quality scale with
  | Except.ok d => ([d], none)
  | Except.error e => ([], some e)

/-- `tilesFrom s rs e`: the ranges `rs` tile the page span `s..e` in order,
with no gaps and no overlaps (each range starts where the previous one
stopped plus one, and the last stops at `e`). -/
def tilesFrom : Int → List PageRange → Int → Prop
  | s, [], e => s = e + 1
  | s, r :: rs, e => r.«from» = s ∧ s ≤ r.«to» ∧ tilesFrom (r.«to» + 1) rs e

/-! ## Arithmetic facts about clamping -/

/-- Clamping into `[1, pageCount]` is the identity on values already there. -/
theorem clampInt_eq_self {v pc : Int} (h1 : 1 ≤ v) (h2 : v ≤ pc) : clampInt v 1 pc = v := by
  simp only [clampInt]
  omega

/-- With `pageCount ≥ 1` the clamped value lies in `[1, pageCount]`. -/
theorem clampInt_bounds (v : Int) {pc : Int} (h : 1 ≤ pc) :
    1 ≤ clampInt v 1 pc ∧ clampInt v 1 pc ≤ pc := by
  simp only [clampInt]
  omega

/-! ## The split pipeline -/

/-- `copyPages` on a block of consecutive 0-based indexes returns exactly the
corresponding slice of the source. -/
theorem copyPages_consecutive {α : Type} (src : List α) :
    ∀ (n a : Nat), a + n ≤ src.length →
      copyPages src ((List.range n).map fun k => ((a + k : Nat) : Int)) =
        some ((src.drop a).take n)
  | 0, a, _ => rfl
  | n + 1, a, h => by
    have ha : a < src.length := by omega
    have hrec := copyPages_consecutive src n (a + 1) (by omega)
    rw [List.range_succ_eq_map]
    simp only [List.map_cons, List.map_map]
    have hmap : ((List.range n).map ((fun k => ((a + k : Nat) : Int)) ∘ Nat.succ)) =
        (List.range n).map (fun k => (((a + 1) + k : Nat) : Int)) := by
      apply List.map_congr_left
      intro k _
      simp only [Function.comp]
      push_cast
      omega
    rw [hmap]
    simp only [copyPages] at hrec ⊢
    rw [List.mapM_cons, hrec]
    have h0 : (0 : Int) ≤ ((a + 0 : Nat) : Int) := by positivity
    simp only [if_pos h0, Int.toNat_natCast, Nat.add_zero]
    rw [List.get?_eq_getElem?, List.getElem?_eq_getElem ha]
    rw [List.drop_eq_getElem_cons ha, List.take_succ_cons]
    rfl

/-- The index block of a valid range, written with natural numbers. -/
theorem pageIndexes_eq {r : PageRange} (h1 : 1 ≤ r.«from») :
    pageIndexes r = (List.range (r.«to» - r.«from» + 1).toNat).map
      (fun k => (((r.«from» - 1).toNat + k : Nat) : Int)) := by
  unfold pageIndexes
  apply List.map_congr_left
  intro k _
  push_cast
  omega

/-- Copying the pages of a valid range yields the slice `from..to` of the
source. -/
theorem copyPages_extract {α : Type} {src : List α} {r : PageRange}
    (h1 : 1 ≤ r.«from») (h2 : r.«from» ≤ r.«to») (h3 : r.«to» ≤ (src.length : Int)) :
    copyPages src (pageIndexes r) = some (extractRange src r) := by
  rw [pageIndexes_eq h1]
  exact copyPages_consecutive src _ _ (by omega)

/-- A valid range extracts exactly `to - from + 1` pages. -/
theorem extractRange_length {α : Type} {src : List α} {r : PageRange}
    (h1 : 1 ≤ r.«from») (h2 : r.«from» ≤ r.«to») (h3 : r.«to» ≤ (src.length : Int)) :
    (extractRange src r).length = (r.«to» - r.«from» + 1).toNat := by
  simp only [extractRange, List.length_take, List.length_drop]
  omega

/-- On a list of valid ranges the download loop emits one slice per range, in
input order, and reports no error. -/
theorem runRanges_valid {α : Type} (src : List α) :
    ∀ (rs : List PageRange),
      (∀ r ∈ rs, 1 ≤ r.«from» ∧ r.«from» ≤ r.«to» ∧ r.«to» ≤ (src.length : Int)) →
      runRanges src rs = (rs.map (extractRange src), none)
  | [], _ => rfl
  | r :: rs, h => by
    have hr := h r (List.mem_cons_self r rs)
    have htail := runRanges_valid src rs (fun x hx => h x (List.mem_cons_of_mem r hx))
    simp [runRanges, copyPages_extract hr.1 hr.2.1 hr.2.2, htail]

/-- Clamping and swapping does not move ranges that are already valid. -/
theorem cleaned_of_valid {pc : Int} (hpc : pc ≠ 0) {ranges : List PageRange}
    (h : ∀ r ∈ ranges, 1 ≤ r.«from» ∧ r.«from» ≤ r.«to» ∧ r.«to» ≤ pc) :
    cleaned pc ranges = ranges := by
  unfold cleaned validRanges
  rw [if_neg hpc, List.map_map]
  conv_rhs => rw [← List.map_id ranges]
  apply List.map_congr_left
  intro r hr
  obtain ⟨h1, h2, h3⟩ := h r hr
  simp only [Function.comp, clampInt_eq_self h1 (le_trans h2 h3),
    clampInt_eq_self (le_trans h1 h2) h3, id]
  rw [if_neg (by omega)]

/-- Every range surviving the clamp-and-swap preprocessing is valid, provided
at least one page is loaded. -/
theorem cleaned_all_valid {pc : Int} (hpc : 1 ≤ pc) (ranges : List PageRange) :
    ∀ r ∈ cleaned pc ranges, 1 ≤ r.«from» ∧ r.«from» ≤ r.«to» ∧ r.«to» ≤ pc := by
  intro r hr
  simp only [cleaned, validRanges, if_neg (by omega : pc ≠ 0), List.map_map,
    List.mem_map, Function.comp] at hr
  obtain ⟨r', _, rfl⟩ := hr
  obtain ⟨hf1, hf2⟩ := clampInt_bounds r'.«from» hpc
  obtain ⟨ht1, ht2⟩ := clampInt_bounds r'.«to» hpc
  split_ifs with hc
  · dsimp only
    omega
  · dsimp only
    omega

/-- On valid ranges over a non-empty source, `splitAndDownload` downloads one
slice per range, in input order, with no error. -/
theorem splitAndDownload_eq {α : Type} {src : List α} {ranges : List PageRange}
    (hlen : 0 < src.length)
    (hv : ∀ r ∈ ranges, 1 ≤ r.«from» ∧ r.«from» ≤ r.«to» ∧ r.«to» ≤ (src.length : Int)) :
    splitAndDownload src ranges = (ranges.map (extractRange src), none) := by
  have hpc : ((src.length : Nat) : Int) ≠ 0 := by omega
  have hclean := cleaned_of_valid hpc hv
  have hany : (ranges.any (rangeInvalid (src.length : Int))) = false := by
    rw [List.any_eq_false]
    intro r hr
    obtain ⟨h1, h2, h3⟩ := hv r hr
    simp only [Bool.not_eq_true, rangeInvalid, Bool.or_eq_false_iff,
      decide_eq_false_iff_not, not_lt]
    omega
  simp only [splitAndDownload, if_neg hpc, hclean, hany, Bool.false_eq_true, if_false]
  exact runRanges_valid src ranges hv

/-! ## The merge pipeline -/

/-- The merge loop over readable sources appends all their pages, in list
order, to the accumulator. -/
theorem mergeLoop_all_some {α : Type} :
    ∀ (docs : List (List α)) (acc : List α),
      mergeLoop (docs.map some) acc = Except.ok (acc ++ docs.flatten)
  | [], acc => by simp [mergeLoop]
  | d :: ds, acc => by
    simp only [List.map_cons, mergeLoop, List.flatten_cons]
    rw [mergeLoop_all_some ds (acc ++ d)]
    simp

/-- The merge loop fails with the generic merge error as soon as the source
list contains an unreadable document. -/
theorem mergeLoop_none {α : Type} :
    ∀ (files : List (Option (List α))), none ∈ files → ∀ acc,
      mergeLoop files acc = Except.error MergeError.mergeFailed
  | [], h => by simp at h
  | none :: fs, _ => fun acc => by simp [mergeLoop]
  | some d :: fs, h => fun acc => by
    simp only [List.mem_cons] at h
    rcases h with h | h
    · exact absurd h (by simp)
    · simpa [mergeLoop] using mergeLoop_none fs h (acc ++ d)

/-- Merging two or more readable sources concatenates all their pages. -/
theorem mergeAndDownload_all_some {α : Type} {docs : List (List α)} (h : 2 ≤ docs.length) :
    mergeAndDownload (docs.map some) = Except.ok docs.flatten := by
  unfold mergeAndDownload
  rw [if_neg (by simp only [List.length_map]; omega)]
  simpa using mergeLoop_all_some docs []

/-! ## Claim theorems -/

/-- C1: for every valid range `{from, to}` with `1 ≤ from ≤ to ≤ pageCount`,
`splitAndDownload` on a source of `pageCount ≥ 1` pages produces, per range
and in input order, one output document that is exactly source pages
`from..to` copied in ascending order, hence with exactly `to - from + 1`
pages, and reports no error. -/
theorem split_produces_exact_slices {α : Type} (src : List α) (ranges : List PageRange)
    (hlen : 0 < src.length)
    (hv : ∀ r ∈ ranges, 1 ≤ r.«from» ∧ r.«from» ≤ r.«to» ∧ r.«to» ≤ (src.length : Int)) :
    splitAndDownload src ranges = (ranges.map (extractRange src), none) ∧
    ∀ r ∈ ranges, (extractRange src r).length = (r.«to» - r.«from» + 1).toNat := by
  refine ⟨splitAndDownload_eq hlen hv, fun r hr => ?_⟩
  obtain ⟨h1, h2, h3⟩ := hv r hr
  exact extractRange_length h1 h2 h3

/-- C1 witness: splitting a three-page document at the ranges `1-2` and `3-3`
downloads the slices `[pages 1-2]` and `[page 3]` with no error. -/
theorem split_produces_exact_slices_witness :
    splitAndDownload ([10, 20, 30] : List Nat) [⟨1, 2⟩, ⟨3, 3⟩] =
      ([(⟨1, 2⟩ : PageRange), ⟨3, 3⟩].map (extractRange [10, 20, 30]), none) ∧
    ∀ r ∈ [(⟨1, 2⟩ : PageRange), ⟨3, 3⟩],
      (extractRange ([10, 20, 30] : List Nat) r).length = (r.«to» - r.«from» + 1).toNat :=
  split_produces_exact_slices [10, 20, 30] [⟨1, 2⟩, ⟨3, 3⟩] (by decide) (by decide)

/-- C2: merging a list of two or more readable sources produces the single
document whose pages are the concatenation of all pages of each source, in
list order with each source's pages kept in order, so the output page count
is the sum of the sources' page counts. -/
theorem merge_concatenates {α : Type} (docs : List (List α)) (h : 2 ≤ docs.length) :
    mergeAndDownload (docs.map some) = Except.ok docs.flatten ∧
    docs.flatten.length = (docs.map List.length).sum :=
  ⟨mergeAndDownload_all_some h, List.length_flatten docs⟩

/-- C2 witness: merging a three-page document with a two-page document yields
the five pages of both in order. -/
theorem merge_concatenates_witness :
    mergeAndDownload ([[1, 2, 3], [4, 5]].map (some : List Nat → Option (List Nat))) =
      Except.ok ([[1, 2, 3], [4, 5]] : List (List Nat)).flatten ∧
    (([[1, 2, 3], [4, 5]] : List (List Nat)).flatten).length =
      (([[1, 2, 3], [4, 5]] : List (List Nat)).map List.length).sum :=
  merge_concatenates [[1, 2, 3], [4, 5]] (by decide)

/-- C8: merging fewer than two sources (none or a single one) fails with the
insufficient-inputs error and downloads nothing. -/
theorem merge_requires_two_sources {α : Type} (files : List (Option (List α)))
    (h : files.length < 2) :
    mergeAndDownload files = Except.error MergeError.insufficientInputs ∧
    mergeDownloads files = ([], some MergeError.insufficientInputs) := by
  have hm : mergeAndDownload files = Except.error MergeError.insufficientInputs := by
    unfold mergeAndDownload
    rw [if_pos h]
  refine ⟨hm, ?_⟩
  unfold mergeDownloads
  rw [hm]

/-- C8 witness: merging a single document fails with the
insufficient-inputs error and downloads nothing. -/
theorem merge_requires_two_sources_witness :
    mergeAndDownload [(some [10, 20] : Option (List Nat))] =
      Except.error MergeError.insufficientInputs ∧
    mergeDownloads [(some [10, 20] : Option (List Nat))] =
      ([], some MergeError.insufficientInputs) :=
  merge_requires_two_sources [some [10, 20]] (by decide)

/-- C7 counterexample: the merge failure carries no index naming the failing
source — an unreadable source at index 0 and one at index 1 produce the very
same generic error, so the error does not identify the failing source's
index as the claim states. -/
theorem merge_error_carries_no_index :
    mergeAndDownload [none, some [(1 : Nat)]] = Except.error MergeError.mergeFailed ∧
    mergeAndDownload [some [(1 : Nat)], none] = Except.error MergeError.mergeFailed :=
  ⟨rfl, rfl⟩

/-- C7 (amended): a source list of at least two documents containing an
unreadable one makes the whole merge fail — with the generic merge error, not
one identifying the failing index — and nothing is downloaded; the unreadable
source is never silently skipped. -/
theorem merge_unreadable_fails_whole {α : Type} (files : List (Option (List α)))
    (h2 : 2 ≤ files.length) (hbad : none ∈ files) :
    mergeAndDownload files = Except.error MergeError.mergeFailed ∧
    mergeDownloads files = ([], some MergeError.mergeFailed) := by
  have hm : mergeAndDownload files = Except.error MergeError.mergeFailed := by
    unfold mergeAndDownload
    rw [if_neg (by omega)]
    exact mergeLoop_none files hbad []
  refine ⟨hm, ?_⟩
  unfold mergeDownloads
  rw [hm]

/-- C7 witness: merging a readable document with an unreadable one fails as a
whole with the generic merge error and downloads nothing. -/
theorem merge_unreadable_fails_whole_witness :
    mergeAndDownload [some [(1 : Nat)], none] = Except.error MergeError.mergeFailed ∧
    mergeDownloads [some [(1 : Nat)], none] = ([], some MergeError.mergeFailed) :=
  merge_unreadable_fails_whole [some [1], none] (by decide) (by simp)

/-- C5: with a known page count `pageCount ≥ 1`, normalization clamps `from`
and `to` independently into `[1, pageCount]` and then swaps them exactly when
the clamped `from` exceeds the clamped `to` (so the result is the ordered
pair of the two clamped values, a total function that never fails), and in
particular normalizing `{from: 10, to: 2}` against `pageCount = 5` yields
`{from: 2, to: 5}`. -/
theorem normalize_clamps_then_swaps (pc : Int) (r : PageRange) (h : 1 ≤ pc) :
    (normalizeRange pc r).«from» = min (clampInt r.«from» 1 pc) (clampInt r.«to» 1 pc) ∧
    (normalizeRange pc r).«to» = max (clampInt r.«from» 1 pc) (clampInt r.«to» 1 pc) ∧
    1 ≤ (normalizeRange pc r).«from» ∧
    (normalizeRange pc r).«from» ≤ (normalizeRange pc r).«to» ∧
    (normalizeRange pc r).«to» ≤ pc ∧
    normalizeRanges 5 [⟨10, 2⟩] = [⟨2, 5⟩] := by
  obtain ⟨hf1, hf2⟩ := clampInt_bounds r.«from» h
  obtain ⟨ht1, ht2⟩ := clampInt_bounds r.«to» h
  simp only [normalizeRange]
  split_ifs with hc
  · refine ⟨?_, ?_, ?_, ?_, ?_, by decide⟩ <;> dsimp only <;> omega
  · refine ⟨?_, ?_, ?_, ?_, ?_, by decide⟩ <;> dsimp only <;> omega

/-- C5 witness: normalizing `{from: 10, to: 2}` against `pageCount = 5`
clamps to `{5, 2}` and swaps to `{from: 2, to: 5}`. -/
theorem normalize_clamps_then_swaps_witness :
    (normalizeRange 5 ⟨10, 2⟩).«from» = min (clampInt 10 1 5) (clampInt 2 1 5) ∧
    (normalizeRange 5 ⟨10, 2⟩).«to» = max (clampInt 10 1 5) (clampInt 2 1 5) ∧
    1 ≤ (normalizeRange 5 ⟨10, 2⟩).«from» ∧
    (normalizeRange 5 ⟨10, 2⟩).«from» ≤ (normalizeRange 5 ⟨10, 2⟩).«to» ∧
    (normalizeRange 5 ⟨10, 2⟩).«to» ≤ 5 ∧
    normalizeRanges 5 [⟨10, 2⟩] = [⟨2, 5⟩] :=
  normalize_clamps_then_swaps 5 ⟨10, 2⟩ (by decide)

/-- C3 counterexample: compressing a single US-letter page (612 × 792 points)
at quality 1 and scale 6/5 produces an output page of width 3672/5 = 734.4
(scale times the original) while its raster frame's width is the floor, 734 —
so the output page is not sized to its rendered raster frame's width/height
as the claim states. -/
theorem compress_page_not_sized_to_frame :
    handleFile (some [⟨612, 792⟩]) 1 (6 / 5) =
      Except.ok [⟨3672 / 5, 4752 / 5, 734, 950, 0, 0, 3672 / 5, 4752 / 5⟩] ∧
    ((3672 : Rat) / 5 ≠ ((734 : Int) : Rat)) := by
  constructor
  · simp only [handleFile, renderPage, List.map_cons, List.map_nil]
    norm_num
  · norm_num

/-- C3 (amended): for a readable source and quality in `(0, 1]`, scale `> 0`,
compression outputs one page per source page in source order; each output
page's dimensions equal scale times the original page's dimensions, the
encoded image is placed at the bottom-left origin with width and height equal
to the page's (filling it exactly), and the rendered raster frame's
dimensions are the floors of the page's dimensions (so the page equals the
frame only when the scaled dimensions are whole). -/
theorem compress_scales_pages (pages : List PdfPage) (quality scale : Rat)
    (hq0 : 0 < quality) (hq1 : quality ≤ 1) (hs : 0 < scale) :
    handleFile (some pages) quality scale = Except.ok (pages.map (renderPage scale)) ∧
    (pages.map (renderPage scale)).length = pages.length ∧
    ∀ p ∈ pages,
      (renderPage scale p).pageWidth = scale * p.width ∧
      (renderPage scale p).pageHeight = scale * p.height ∧
      (renderPage scale p).canvasWidth = ⌊scale * p.width⌋ ∧
      (renderPage scale p).canvasHeight = ⌊scale * p.height⌋ ∧
      (renderPage scale p).imageX = 0 ∧
      (renderPage scale p).imageY = 0 ∧
      (renderPage scale p).imageWidth = (renderPage scale p).pageWidth ∧
      (renderPage scale p).imageHeight = (renderPage scale p).pageHeight := by
  refine ⟨rfl, List.length_map pages (renderPage scale), fun p _ => ?_⟩
  exact ⟨rfl, rfl, rfl, rfl, rfl, rfl, rfl, rfl⟩

/-- C3 witness: compressing a 612 × 792 page at quality 1 and scale 2 yields
one 1224 × 1584 output page with the image filling it from the origin. -/
theorem compress_scales_pages_witness :
    handleFile (some [⟨612, 792⟩]) 1 2 =
      Except.ok ([(⟨612, 792⟩ : PdfPage)].map (renderPage 2)) ∧
    (([(⟨612, 792⟩ : PdfPage)].map (renderPage 2))).length = [(⟨612, 792⟩ : PdfPage)].length ∧
    ∀ p ∈ [(⟨612, 792⟩ : PdfPage)],
      (renderPage 2 p).pageWidth = 2 * p.width ∧
      (renderPage 2 p).pageHeight = 2 * p.height ∧
      (renderPage 2 p).canvasWidth = ⌊(2 : Rat) * p.width⌋ ∧
      (renderPage 2 p).canvasHeight = ⌊(2 : Rat) * p.height⌋ ∧
      (renderPage 2 p).imageX = 0 ∧
      (renderPage 2 p).imageY = 0 ∧
      (renderPage 2 p).imageWidth = (renderPage 2 p).pageWidth ∧
      (renderPage 2 p).imageHeight = (renderPage 2 p).pageHeight :=
  compress_scales_pages [⟨612, 792⟩] 1 2 (by norm_num) (by norm_num) (by norm_num)

/-- C4: each of the three operations is atomic as observed through its
downloads: whenever an operation reports an error, its list of downloaded
outputs is empty, so a failure never leaves the caller holding a partial
artifact.  (For split, every modelled failure — missing/empty file or an
invalid range — is raised before the download loop starts, and the loop
itself cannot fail on ranges that passed validation.) -/
theorem operations_fail_without_output :
    (∀ (α : Type) (src : List α) (ranges : List PageRange),
        ((splitAndDownload src ranges).2).isSome = true →
          (splitAndDownload src ranges).1 = []) ∧
    (∀ (α : Type) (files : List (Option (List α))),
        ((mergeDownloads files).2).isSome = true → (mergeDownloads files).1 = []) ∧
    (∀ (input : Option (List PdfPage)) (quality scale : Rat),
        ((compressDownloads input quality scale).2).isSome = true →
          (compressDownloads input quality scale).1 = []) := by
  refine ⟨fun α src ranges hs => ?_, fun α files hs => ?_, fun input quality scale hs => ?_⟩
  · by_cases h0 : ((src.length : Nat) : Int) = 0
    · simp [splitAndDownload, h0]
    · have hpc : (1 : Int) ≤ (src.length : Int) := by omega
      have hvalid := cleaned_all_valid hpc ranges
      have hrun := runRanges_valid src (cleaned (src.length : Int) ranges) hvalid
      by_cases hany :
          ((cleaned (src.length : Int) ranges).any (rangeInvalid (src.length : Int))) = true
      · simp [splitAndDownload, h0, hany]
      · exfalso
        simp only [splitAndDownload, if_neg h0, hany, Bool.false_eq_true, if_false, hrun,
          Option.isSome_none, Bool.false_eq_true] at hs
  · unfold mergeDownloads at hs ⊢
    cases hm : mergeAndDownload files with
    | ok d => rw [hm] at hs; simp at hs
    | error e => rfl
  · unfold compressDownloads at hs ⊢
    cases hm : handleFile input quality scale with
    | ok d => rw [hm] at hs; simp at hs
    | error e => rfl

/-- C4 witness: split with no file loaded reports an error and has downloaded
nothing; merge of one source and compress of an unreadable input likewise
error with no download. -/
theorem operations_fail_without_output_witness :
    (splitAndDownload ([] : List Nat) []).1 = [] ∧
    (mergeDownloads [(some [10] : Option (List Nat))]).1 = [] ∧
    (compressDownloads none 1 1).1 = [] :=
  ⟨operations_fail_without_output.1 Nat [] [] (by decide),
   operations_fail_without_output.2.1 Nat [some [10]] (by decide),
   operations_fail_without_output.2.2 none 1 1 (by decide)⟩

/-- C10: the in-engine bounds validation of `splitAndDownload` is
unreachable — with any loaded page count `pageCount ≥ 1`, every clamped and
swapped range already satisfies `1 ≤ from ≤ to ≤ pageCount`, so the
invalid-ranges branch never fires, on any input whatsoever. -/
theorem split_bounds_check_unreachable :
    (∀ (pc : Int), 1 ≤ pc → ∀ (ranges : List PageRange),
        ((cleaned pc ranges).any (rangeInvalid pc)) = false) ∧
    (∀ (α : Type) (src : List α) (ranges : List PageRange),
        (splitAndDownload src ranges).2 ≠ some SplitError.invalidRanges) := by
  have hfalse : ∀ (pc : Int), 1 ≤ pc → ∀ (ranges : List PageRange),
      ((cleaned pc ranges).any (rangeInvalid pc)) = false := by
    intro pc hpc ranges
    rw [List.any_eq_false]
    intro r hr
    obtain ⟨h1, h2, h3⟩ := cleaned_all_valid hpc ranges r hr
    simp only [Bool.not_eq_true, rangeInvalid, Bool.or_eq_false_iff,
      decide_eq_false_iff_not, not_lt]
    omega
  refine ⟨hfalse, fun α src ranges => ?_⟩
  by_cases h0 : ((src.length : Nat) : Int) = 0
  · simp [splitAndDownload, h0]
  · have hpc : (1 : Int) ≤ (src.length : Int) := by omega
    have hany := hfalse (src.length : Int) hpc ranges
    have hrun := runRanges_valid src (cleaned (src.length : Int) ranges)
      (cleaned_all_valid hpc ranges)
    simp [splitAndDownload, if_neg h0, hany, hrun]

/-- C10 witness: with a five-page document and the wildly out-of-bounds range
`{from: 10, to: -3}`, the preprocessed ranges pass the bounds check and the
split does not report invalid ranges. -/
theorem split_bounds_check_unreachable_witness :
    ((cleaned 5 [⟨10, -3⟩]).any (rangeInvalid 5)) = false ∧
    (splitAndDownload ([1, 2, 3, 4, 5] : List Nat) [⟨10, -3⟩]).2 ≠
      some SplitError.invalidRanges :=
  ⟨split_bounds_check_unreachable.1 5 (by decide) [⟨10, -3⟩],
   split_bounds_check_unreachable.2 Nat [1, 2, 3, 4, 5] [⟨10, -3⟩]⟩

/-! ## Tiling lemmas for the split/merge round trip -/

/-- A tiling of `s..e` forces `s ≤ e + 1`. -/
theorem tilesFrom_le : ∀ {s : Int} {rs : List PageRange} {e : Int},
    tilesFrom s rs e → s ≤ e + 1
  | _, [], _, h => le_of_eq h
  | _, r :: rs, _, h => by
    have h1 := h.2.1
    have := tilesFrom_le h.2.2
    omega

/-- Every range of a tiling of `s..e` with `s ≥ 1` is a valid range of a
document with `e` pages. -/
theorem tilesFrom_valid : ∀ {s : Int} {rs : List PageRange} {e : Int},
    tilesFrom s rs e → 1 ≤ s →
    ∀ r ∈ rs, 1 ≤ r.«from» ∧ r.«from» ≤ r.«to» ∧ r.«to» ≤ e
  | _, [], _, _, _ => by simp
  | s, q :: rs, e, h, hs => by
    obtain ⟨hf, hto, htail⟩ := h
    have hte := tilesFrom_le htail
    intro r hr
    rcases List.mem_cons.mp hr with rfl | hr
    · exact ⟨by omega, by omega, by omega⟩
    · exact tilesFrom_valid htail (by omega) r hr

/-- The lengths of the ranges of a tiling of `s..e` sum to `e - s + 1`. -/
theorem tilesFrom_sum : ∀ {s : Int} {rs : List PageRange} {e : Int},
    tilesFrom s rs e → (rs.map fun r => r.«to» - r.«from» + 1).sum = e - s + 1
  | s, [], e, h => by
    simp only [List.map_nil, List.sum_nil]
    simp only [tilesFrom] at h
    omega
  | s, r :: rs, e, h => by
    obtain ⟨hf, hto, htail⟩ := h
    have := tilesFrom_sum htail
    simp only [List.map_cons, List.sum_cons]
    omega

/-- The total number of pages extracted for a list of valid ranges, as an
integer: the sum of the ranges' lengths. -/
theorem sum_extract_lengths {α : Type} (src : List α) :
    ∀ (rs : List PageRange),
      (∀ r ∈ rs, 1 ≤ r.«from» ∧ r.«from» ≤ r.«to» ∧ r.«to» ≤ (src.length : Int)) →
      (((rs.map fun r => (extractRange src r).length).sum : Nat) : Int) =
        (rs.map fun r => r.«to» - r.«from» + 1).sum
  | [], _ => by simp
  | r :: rs, h => by
    obtain ⟨h1, h2, h3⟩ := h r (List.mem_cons_self r rs)
    have htail := sum_extract_lengths src rs (fun x hx => h x (List.mem_cons_of_mem r hx))
    simp only [List.map_cons, List.sum_cons]
    push_cast
    push_cast at htail
    rw [extractRange_length h1 h2 h3, htail]
    omega

/-- C9 counterexample: the single range `{1, 2}` covers the full span of a
two-page document with no gaps or overlaps and split succeeds on it, yet
merging all (one) resulting outputs fails with the insufficient-inputs error
and yields no document at all, contradicting the claim's conclusion. -/
theorem roundtrip_single_range_fails :
    tilesFrom 1 [⟨1, 2⟩] ((([10, 20] : List Nat).length : Nat) : Int) ∧
    splitAndDownload ([10, 20] : List Nat) [⟨1, 2⟩] = ([[10, 20]], none) ∧
    mergeAndDownload ([[10, 20]].map (some : List Nat → Option (List Nat))) =
      Except.error MergeError.insufficientInputs := by
  refine ⟨?_, by decide, rfl⟩
  simp only [tilesFrom, List.length_cons, List.length_nil]
  norm_num

/-- C9 (amended): for a source document and at least two ranges tiling the
full page span `1..pageCount` in order with no gaps or overlaps, split
succeeds on all ranges and merging all resulting outputs in the original
order yields a document whose page count equals the source's. -/
theorem split_merge_roundtrip {α : Type} (src : List α) (ranges : List PageRange)
    (h2 : 2 ≤ ranges.length) (ht : tilesFrom 1 ranges ((src.length : Nat) : Int)) :
    splitAndDownload src ranges = (ranges.map (extractRange src), none) ∧
    mergeAndDownload ((ranges.map (extractRange src)).map some) =
      Except.ok ((ranges.map (extractRange src)).flatten) ∧
    ((ranges.map (extractRange src)).flatten).length = src.length := by
  have hv := tilesFrom_valid ht (by omega)
  have hlen : 0 < src.length := by
    match ranges, h2, ht with
    | r :: rs, _, ht =>
      obtain ⟨hf, hto, _⟩ := ht
      have := hv r (List.mem_cons_self r rs)
      omega
  refine ⟨splitAndDownload_eq hlen hv, ?_, ?_⟩
  · exact mergeAndDownload_all_some (by rw [List.length_map]; omega)
  · have hs := sum_extract_lengths src ranges hv
    have hts := tilesFrom_sum ht
    rw [List.length_flatten, List.map_map]
    have hcomp : (List.map (List.length ∘ extractRange src) ranges) =
        (ranges.map fun r => (extractRange src r).length) := by
      apply List.map_congr_left
      intro r _
      rfl
    rw [hcomp]
    omega

/-- C9 witness: splitting a three-page document at the tiling ranges `1-1`
and `2-3` and merging the two outputs reproduces a three-page document. -/
theorem split_merge_roundtrip_witness :
    splitAndDownload ([10, 20, 30] : List Nat) [⟨1, 1⟩, ⟨2, 3⟩] =
      ([(⟨1, 1⟩ : PageRange), ⟨2, 3⟩].map (extractRange [10, 20, 30]), none) ∧
    mergeAndDownload (([(⟨1, 1⟩ : PageRange), ⟨2, 3⟩].map
        (extractRange ([10, 20, 30] : List Nat))).map some) =
      Except.ok (([(⟨1, 1⟩ : PageRange), ⟨2, 3⟩].map
        (extractRange ([10, 20, 30] : List Nat))).flatten) ∧
    (([(⟨1, 1⟩ : PageRange), ⟨2, 3⟩].map
        (extractRange ([10, 20, 30] : List Nat))).flatten).length =
      ([10, 20, 30] : List Nat).length :=
  split_merge_roundtrip [10, 20, 30] [⟨1, 1⟩, ⟨2, 3⟩] (by decide)
    (by simp only [tilesFrom, List.length_cons, List.length_nil]; norm_num)

/-! ## The range parser -/

/-- ECMAScript whitespace characters are not digits. -/
theorem ws_not_digit {c : Char} (h : jsWhitespace c = true) : c.isDigit = false := by
  simp only [jsWhitespace, Bool.or_eq_true, Bool.and_eq_true, decide_eq_true_eq] at h
  rcases h with ((((((((((((((rfl | rfl) | rfl) | rfl) | rfl) | rfl) | rfl) | rfl) | ⟨h1, h2⟩) | rfl) | rfl) | rfl) | rfl) | rfl) | rfl)
  all_goals first
    | decide
    | (have hle : ¬ c ≤ '9' := fun hle => by
         have h3 := le_trans h1 hle
         revert h3
         decide
       simp only [Char.isDigit, hle]
       simp only [Bool.and_eq_false_iff, decide_eq_false_iff_not]
       right
       exact hle)

/-- Digits are not ECMAScript whitespace characters. -/
theorem digit_not_ws {c : Char} (h : c.isDigit = true) : jsWhitespace c = false := by
  cases hws : jsWhitespace c with
  | false => rfl
  | true => exact absurd h (by simp [ws_not_digit hws])

/-- Splitting off a maximal prefix: if every character of `l1` satisfies `p`
and `l2` does not start with one that does, then `takeWhile`/`dropWhile` on
`l1 ++ l2` recover exactly `l1` and `l2`. -/
theorem takeWhile_dropWhile_append (p : Char → Bool) :
    ∀ (l1 l2 : List Char), (∀ c ∈ l1, p c = true) →
      (∀ c, l2.head? = some c → p c = false) →
      (l1 ++ l2).takeWhile p = l1 ∧ (l1 ++ l2).dropWhile p = l2
  | [], l2, _, h2 => by
    cases l2 with
    | nil => exact ⟨rfl, rfl⟩
    | cons c t =>
      have hc := h2 c rfl
      simp [List.takeWhile_cons, List.dropWhile_cons, hc]
  | x :: l1, l2, h1, h2 => by
    have hx := h1 x (List.mem_cons_self x l1)
    have ih := takeWhile_dropWhile_append p l1 l2
      (fun c hc => h1 c (List.mem_cons_of_mem x hc)) h2
    simp [List.takeWhile_cons, List.dropWhile_cons, hx, ih.1, ih.2]

/-- Soundness of the regex match: a successful `matchToken` exhibits a
decomposition of the token required by the grammar, with the captures it
returns. -/
theorem matchToken_sound {t : List Char} {a : Nat} {b : Option Nat}
    (h : matchToken t = some (a, b)) : tokenSpec t a b := by
  simp only [matchToken] at h
  have ht : t = t.takeWhile Char.isDigit ++ t.dropWhile Char.isDigit :=
    (List.takeWhile_append_dropWhile Char.isDigit t).symm
  cases hE : (t.takeWhile Char.isDigit).isEmpty with
  | true => rw [hE] at h; simp at h
  | false =>
    rw [hE] at h
    simp only [Bool.false_eq_true, if_false] at h
    have hne : t.takeWhile Char.isDigit ≠ [] := by
      intro h0
      rw [h0] at hE
      simp at hE
    split at h
    case h_1 hr2 =>
      simp only [Option.some.injEq, Prod.mk.injEq] at h
      obtain ⟨ha, hb⟩ := h
      left
      refine ⟨hb.symm, t.takeWhile Char.isDigit, t.dropWhile Char.isDigit, ht, hne,
        fun c hc => List.mem_takeWhile_imp hc,
        List.dropWhile_eq_nil_iff.mp hr2, ha.symm⟩
    case h_2 c rest2 hr2 =>
      by_cases hc : c = '-'
      case neg => rw [if_neg hc] at h; simp at h
      subst hc
      rw [if_pos rfl] at h
      split at h
      · simp at h
      rename_i hE2
      split at h
      case _ hE3 =>
        simp only [Option.some.injEq, Prod.mk.injEq] at h
        obtain ⟨ha, hb⟩ := h
        have hE3' : (rest2.dropWhile jsWhitespace).dropWhile Char.isDigit = [] := by
          cases hx : (rest2.dropWhile jsWhitespace).dropWhile Char.isDigit with
          | nil => rfl
          | cons y ys => rw [hx] at hE3; simp at hE3
        have h1 : t.dropWhile Char.isDigit =
            (t.dropWhile Char.isDigit).takeWhile jsWhitespace ++ ('-' :: rest2) := by
          conv_lhs => rw [← List.takeWhile_append_dropWhile jsWhitespace
            (t.dropWhile Char.isDigit)]
          rw [hr2]
        have h2 : rest2 = rest2.takeWhile jsWhitespace ++
            (rest2.dropWhile jsWhitespace).takeWhile Char.isDigit := by
          conv_lhs => rw [← List.takeWhile_append_dropWhile jsWhitespace rest2]
          conv_lhs => rw [← List.takeWhile_append_dropWhile Char.isDigit
            (rest2.dropWhile jsWhitespace)]
          rw [hE3', List.append_nil]
        right
        refine ⟨digitsToNat ((rest2.dropWhile jsWhitespace).takeWhile Char.isDigit),
          t.takeWhile Char.isDigit,
          (t.dropWhile Char.isDigit).takeWhile jsWhitespace,
          rest2.takeWhile jsWhitespace,
          (rest2.dropWhile jsWhitespace).takeWhile Char.isDigit,
          hb.symm, ?_, hne,
          fun c hc => List.mem_takeWhile_imp hc, ?_,
          fun c hc => List.mem_takeWhile_imp hc,
          fun c hc => List.mem_takeWhile_imp hc,
          fun c hc => List.mem_takeWhile_imp hc,
          ha.symm, rfl⟩
        · conv_lhs => rw [ht]
          conv_lhs => rw [h1]
          conv_lhs => rw [h2]
          rw [List.append_assoc]
        · intro h0
          rw [h0] at hE2
          simp at hE2
      case _ hE3 => simp at h

/-- Completeness of the regex match: a token decomposing as the grammar
requires is matched, with exactly the captures of the decomposition. -/
theorem matchToken_complete {t : List Char} {a : Nat} {b : Option Nat}
    (h : tokenSpec t a b) : matchToken t = some (a, b) := by
  rcases h with ⟨hb, ds, w, ht, hne, hdig, hws, ha⟩ |
    ⟨bv, ds, w1, w2, ds2, hb, ht, hne, hdig, hne2, hdig2, hws1, hws2, ha, hbv⟩
  · subst ht ha hb
    obtain ⟨htw, hdw⟩ := takeWhile_dropWhile_append Char.isDigit ds w hdig
      (fun c hc => ws_not_digit (hws c (List.mem_of_mem_head? hc)))
    have hdsne : ds.isEmpty = false := by
      cases ds with
      | nil => exact absurd rfl hne
      | cons x xs => rfl
    simp only [matchToken, htw, hdw, hdsne, Bool.false_eq_true, if_false,
      List.dropWhile_eq_nil_iff.mpr hws]
  · subst ht ha hb hbv
    have hh2 : ∀ c, (w1 ++ '-' :: (w2 ++ ds2)).head? = some c → Char.isDigit c = false := by
      cases w1 with
      | nil =>
        intro c hc
        simp only [List.nil_append, List.head?_cons, Option.some.injEq] at hc
        subst hc
        decide
      | cons x w1' =>
        intro c hc
        simp only [List.cons_append, List.head?_cons, Option.some.injEq] at hc
        subst hc
        exact ws_not_digit (hws1 x (List.mem_cons_self x w1'))
    obtain ⟨htw, hdw⟩ := takeWhile_dropWhile_append Char.isDigit ds
      (w1 ++ '-' :: (w2 ++ ds2)) hdig hh2
    have hdsne : ds.isEmpty = false := by
      cases ds with
      | nil => exact absurd rfl hne
      | cons x xs => rfl
    obtain ⟨_, hdw2⟩ := takeWhile_dropWhile_append jsWhitespace w1 ('-' :: (w2 ++ ds2))
      hws1 (fun c hc => by
        simp only [List.head?_cons, Option.some.injEq] at hc
        subst hc
        decide)
    have hh3 : ∀ c, ds2.head? = some c → jsWhitespace c = false := by
      cases ds2 with
      | nil => exact absurd rfl hne2
      | cons d ds2' =>
        intro c hc
        simp only [List.head?_cons, Option.some.injEq] at hc
        subst hc
        exact digit_not_ws (hdig2 d (List.mem_cons_self d ds2'))
    obtain ⟨_, hdw3⟩ := takeWhile_dropWhile_append jsWhitespace w2 ds2 hws2 hh3
    have hds2tw : ds2.takeWhile Char.isDigit = ds2 := List.takeWhile_eq_self_iff.mpr hdig2
    have hds2dw : ds2.dropWhile Char.isDigit = [] := List.dropWhile_eq_nil_iff.mpr hdig2
    have hds2ne : ds2.isEmpty = false := by
      cases ds2 with
      | nil => exact absurd rfl hne2
      | cons x xs => rfl
    rw [← List.append_assoc] at htw hdw
    simp only [matchToken, htw, hdw, hdsne, Bool.false_eq_true, if_false, hdw2,
      if_pos rfl, hdw3, hds2tw, hds2dw, hds2ne, List.isEmpty_nil, if_true]


/-- `parseRangeText` succeeds exactly on tokens whose trimmed text matches
the grammar, returning the captures as a range. -/
theorem parseRangeText_iff (s : String) (r : PageRange) :
    parseRangeText s = some r ↔
      ∃ a b, tokenSpec (trimChars s.toList) a b ∧
        r = ⟨(a : Int), ((b.getD a : Nat) : Int)⟩ := by
  simp only [parseRangeText]
  cases hE : (trimChars s.toList).isEmpty with
  | true =>
    have hnil : trimChars s.toList = [] := by
      cases hx : trimChars s.toList with
      | nil => rfl
      | cons c cs => rw [hx] at hE; simp at hE
    simp only [if_pos]
    constructor
    · intro h0
      simp at h0
    · rintro ⟨a, b, hspec, _⟩
      rw [hnil] at hspec
      rcases hspec with ⟨_, ds, w, hds, hne, _⟩ | ⟨bv, ds, w1, w2, ds2, _, hds, hne, _⟩
      · exact absurd (List.append_eq_nil.mp hds.symm).1 hne
      · simp at hds
  | false =>
    simp only [Bool.false_eq_true, if_false]
    split
    case h_1 heq =>
      constructor
      · intro h0
        simp at h0
      · rintro ⟨a, b, hspec, _⟩
        have hcomp := matchToken_complete hspec
        rw [heq] at hcomp
        exact Option.noConfusion hcomp
    case h_2 a' b' heq =>
      constructor
      · intro h0
        simp only [Option.some.injEq] at h0
        exact ⟨a', b', matchToken_sound heq, h0.symm⟩
      · rintro ⟨a, b, hspec, hr⟩
        have hcomp := matchToken_complete hspec
        rw [heq] at hcomp
        simp only [Option.some.injEq, Prod.mk.injEq] at hcomp
        obtain ⟨h1, h2⟩ := hcomp
        subst h1
        subst h2
        rw [hr]

/-- C6: `parseRangeText` accepts exactly the tokens matching the grammar
`^\d+(\s*-\s*\d+)?$` after trimming, where `\s` and `trim()` cover the full
ECMAScript whitespace set (including NBSP and the Unicode spaces): a bare
integer `N` parses to `{from: N, to: N}`, a pair `A-B` parses to
`{from: A, to: B}` exactly as given without reordering — so `"3-1"` yields
`{from: 3, to: 1}` — and every token not matching the grammar parses to no
range.  The equivalence is stated for tokens of at most 15 characters: there
every digit capture is below 10^15 < 2^53, the range where `parseInt`'s
IEEE-754 double is exact and finite, so the integer model is faithful to the
program; float rounding above 2^53 lies outside this embedding. -/
theorem parse_range_text_follows_grammar :
    (∀ (s : String) (r : PageRange), (trimChars s.toList).length ≤ 15 →
        (parseRangeText s = some r ↔
          ∃ a b, tokenSpec (trimChars s.toList) a b ∧
            r = ⟨(a : Int), ((b.getD a : Nat) : Int)⟩)) ∧
    parseRangeText "1-3" = some ⟨1, 3⟩ ∧
    parseRangeText "5" = some ⟨5, 5⟩ ∧
    parseRangeText "3-1" = some ⟨3, 1⟩ ∧
    parseRangeText "\u00a05" = some ⟨5, 5⟩ ∧
    parseRangeText "1\u00a0-\u00a02" = some ⟨1, 2⟩ ∧
    parseRangeText "abc" = none ∧
    parseRangeText "" = none :=
  ⟨fun s r _ => parseRangeText_iff s r, by decide, by decide, by decide, by decide,
    by decide, by decide, by decide⟩
